import Mathlib

/-!
Verification of the optical signal decoding pipeline (`src/unnamed/part_003`,
second variant of `ScopeVisualizer`): sample smoothing, IIR baseline removal,
Schmitt-trigger digitization, run-length pulse classification and
Manchester-style bit/byte recovery.

Machine floating-point values are modelled as exact rationals; the code's
literal coefficients (0.98, 0.02) become 49/50 and 1/50.
-/

namespace Spy

/-- One decoded output event: an `onCharDecoded` call.  The code emits the
strings `"\n[LOCK]"`, `"\n[END]\n"` or `String.fromCharCode(charCode)`;
these are modelled as a lock marker, an end marker and a character code. -/
inductive DecodedEvent where
  | lock : DecodedEvent
  | endMark : DecodedEvent
  | chr : Nat → DecodedEvent
deriving DecidableEq, Repr

/-- The reserved sync word `"11110000"`; bits are `Bool`s, `true = '1'`. -/
def lockPattern : List Bool := [true, true, true, true, false, false, false, false]

/-- The reserved end word `"00001111"`. -/
def endPattern : List Bool := [false, false, false, false, true, true, true, true]

/-- `parseInt(byteStr, 2)`: the accumulator string read as a binary numeral,
most significant bit first. -/
def bitsToNat (bs : List Bool) : Nat :=
  bs.foldl (fun acc b => 2 * acc + (if b then 1 else 0)) 0

/-- `processBit` from the decoder: append one bit to the accumulator; once the
accumulator holds 8 symbols, recognize the sync words or decode a printable
ASCII byte, clearing the accumulator in every branch. -/
def processBit (acc : List Bool) (bit : Bool) : List Bool × Option DecodedEvent :=
  let acc2 := acc ++ [bit]
  if 8 ≤ acc2.length then
    if acc2 = lockPattern then ([], some .lock)
    else if acc2 = endPattern then ([], some .endMark)
    else
      let charCode := bitsToNat acc2
      if 32 ≤ charCode ∧ charCode ≤ 126 then ([], some (.chr charCode))
      else ([], none)
  else (acc2, none)

/-- The mutable refs of the digitizer and Manchester decoder:
`digitalStateRef`, `runLengthRef`, `bitAccumulatorRef`, `lastDigitalStateRef`,
`pendingShortRef`. -/
structure DecoderState where
  digitalState : Nat
  runLength : Nat
  bitAcc : List Bool
  lastDigitalState : Nat
  pendingShort : Option Nat
deriving DecidableEq, Repr

/-- Initial ref values: `useRef(0)`, `useRef(0)`, `useRef("")`, `useRef(0)`,
`useRef(null)`. -/
def initDecoder : DecoderState :=
  { digitalState := 0, runLength := 0, bitAcc := [], lastDigitalState := 0,
    pendingShort := none }

/-- The long-pulse branch of the transition handler (state mutations other
than the run-length/last-state updates shared by all transitions):
`if (currentState === 0) processBit("0"); else processBit("1");
pendingShortRef.current = null;`. -/
def decodeLong (s : DecoderState) (currentState : Nat) :
    DecoderState × Option DecodedEvent :=
  let r := processBit s.bitAcc (if currentState = 0 then false else true)
  ({ s with bitAcc := r.1, pendingShort := none }, r.2)

/-- The short-pulse branch of the transition handler: pair an opposite pending
short pulse into one bit, or store the current level as pending. -/
def decodeShort (s : DecoderState) (currentState : Nat) :
    DecoderState × Option DecodedEvent :=
  match s.pendingShort with
  | some pending =>
      if pending = 0 ∧ currentState = 1 then
        let r := processBit s.bitAcc false
        ({ s with bitAcc := r.1, pendingShort := none }, r.2)
      else if pending = 1 ∧ currentState = 0 then
        let r := processBit s.bitAcc true
        ({ s with bitAcc := r.1, pendingShort := none }, r.2)
      else
        ({ s with pendingShort := none }, none)
  | none => ({ s with pendingShort := some currentState }, none)

/-- One tick of the pulse classifier and line decoder (part_003 lines
402-439): increment the run length while the digital state is unchanged;
on a flip, classify the completed run (`isShort := pulseLen <= 3`,
`isLong := pulseLen >= 4`), run the matching branch, then reset the run
length to 0 and record the new state. -/
def decodeTick (s : DecoderState) (currentState : Nat) :
    DecoderState × Option DecodedEvent :=
  if currentState = s.lastDigitalState then
    ({ s with runLength := s.runLength + 1 }, none)
  else
    let r :=
      if 4 ≤ s.runLength then decodeLong s currentState
      else decodeShort s currentState
    ({ r.1 with runLength := 0, lastDigitalState := currentState }, r.2)

/-- The Schmitt trigger (part_003 lines 367-374): go high above `threshold`,
low below `-threshold`, otherwise keep the previous state. -/
def schmitt (threshold : ℚ) (state : Nat) (acSignal : ℚ) : Nat :=
  if threshold < acSignal then 1
  else if acSignal < -threshold then 0
  else state

/-- One tick of digitizer plus decoder, driven by an amplified AC signal
value. -/
def digitalTick (threshold : ℚ) (s : DecoderState) (acSignal : ℚ) :
    DecoderState × Option DecodedEvent :=
  let st := schmitt threshold s.digitalState acSignal
  decodeTick { s with digitalState := st } st

/-- Run the digitizer/decoder over a list of amplified signal values,
collecting emitted events in order. -/
def runDecoder (threshold : ℚ) : DecoderState → List ℚ →
    DecoderState × List DecodedEvent
  | s, [] => (s, [])
  | s, x :: xs =>
      let r := digitalTick threshold s x
      let rest := runDecoder threshold r.1 xs
      (rest.1, r.2.toList ++ rest.2)

/-- Feed one already-digitized state value to the classifier/decoder (the
`PulseClassifier + LineDecoder` stages consume `DigitalState` directly). -/
def digitalFeed (s : DecoderState) (st : Nat) :
    DecoderState × Option DecodedEvent :=
  decodeTick { s with digitalState := st } st

/-- Run the classifier/decoder over a list of digital state values. -/
def runDigital : DecoderState → List Nat → DecoderState × List DecodedEvent
  | s, [] => (s, [])
  | s, st :: rest =>
      let r := digitalFeed s st
      let rest2 := runDigital r.1 rest
      (rest2.1, r.2.toList ++ rest2.2)

/-- Analog front-end state plus decoder state: `baselineRef`,
`rawHistoryRef` and the decoder refs. -/
structure PipelineState where
  baseline : Option ℚ
  rawHistory : List ℚ
  dec : DecoderState
deriving DecidableEq, Repr

/-- All refs at component creation. -/
def initPipeline : PipelineState :=
  { baseline := none, rawHistory := [], dec := initDecoder }

/-- The smoothing buffer update: push the raw value, then drop the oldest
entry while more than 3 are held. -/
def pushHistory (h : List ℚ) (x : ℚ) : List ℚ :=
  let h2 := h ++ [x]
  if 3 < h2.length then h2.drop 1 else h2

/-- `reduce((a, b) => a + b, 0) / length`. -/
def listAvg (l : List ℚ) : ℚ := l.sum / l.length

/-- One generic step of the first-order IIR baseline filter:
`baseline * α + sample * (1 - α)`.  part_003 instantiates `α = 0.98`;
part_004 instantiates `α = 0.95`. -/
def iirStep (α b s : ℚ) : ℚ := b * α + s * (1 - α)

/-- Run the baseline tracker (with its initialize-to-first-sample rule) over
a sample list from a given baseline ref value. -/
def iirRun (α : ℚ) : Option ℚ → List ℚ → Option ℚ
  | b, [] => b
  | none, s :: rest => iirRun α (some s) rest
  | some b, s :: rest => iirRun α (some (iirStep α b s)) rest

/-- One full pipeline tick on a raw frame sample (part_003 lines 349-439):
3-frame smoothing, IIR baseline (`0.98`/`0.02`), AC extraction and gain,
Schmitt trigger, pulse classification and decode. -/
def pipelineTick (gain threshold : ℚ) (s : PipelineState) (rawCurrent : ℚ) :
    PipelineState × Option DecodedEvent :=
  let hist := pushHistory s.rawHistory rawCurrent
  let rawSmoothed := listAvg hist
  let baseline : ℚ :=
    match s.baseline with
    | none => rawSmoothed
    | some b => b * (49 / 50) + rawSmoothed * (1 / 50)
  let acSignal := (rawSmoothed - baseline) * gain
  let r := digitalTick threshold s.dec acSignal
  ({ baseline := some baseline, rawHistory := hist, dec := r.1 }, r.2)

/-- Run the full pipeline over a list of raw frame samples. -/
def runPipeline (gain threshold : ℚ) : PipelineState → List ℚ →
    PipelineState × List DecodedEvent
  | s, [] => (s, [])
  | s, x :: xs =>
      let r := pipelineTick gain threshold s x
      let rest := runPipeline gain threshold r.1 xs
      (rest.1, r.2.toList ++ rest.2)

/-- The reset block run on a capture-device switch (part_003 lines 295-300):
`baselineRef.current = null; rawHistoryRef.current = [];
runLengthRef.current = 0; bitAccumulatorRef.current = "";
pendingShortRef.current = null;` — `digitalStateRef` and
`lastDigitalStateRef` are not touched. -/
def resetPipeline (s : PipelineState) : PipelineState :=
  { baseline := none, rawHistory := [],
    dec := { s.dec with runLength := 0, bitAcc := [], pendingShort := none } }

/-- A byte as its 8 bits, most significant first (the order in which
`parseInt(byteStr, 2)` reads the accumulator). -/
def byteToBits (n : Nat) : List Bool :=
  (List.range 8).map (fun i => n.testBit (7 - i))

/-- Modelled from the spec: the transmitter is external to this repository.
Section 4.6's Manchester cell for one logical bit, in the sender convention
documented both there (`long-low ⇒ 0, long-high ⇒ 1`) and in the sibling
variant `src/components/ScopeVisualizer.tsx` (`Sender "1" -> [1, 0] (High,
Low); Sender "0" -> [0, 1] (Low, High)`): a `1` is the pair (short pulse
high, short pulse low), a `0` the reverse pair. -/
def bitHalvesSpec (b : Bool) : List Nat := if b then [1, 0] else [0, 1]

/-- Modelled from the spec: encode a byte sequence as the digital tick
stream of its Manchester pulse-run sequence, each half-bit level lasting
`h` ticks.  Same-polarity adjacent half-bits merge into long runs by
construction, as §4.6 describes. -/
def encodeTicksSpec (h : Nat) (bytes : List Nat) : List Nat :=
  ((bytes.flatMap byteToBits).flatMap bitHalvesSpec).flatMap
    (fun lv => List.replicate h lv)

/-- Modelled from the spec: the long-pulse rule of §4.6 — "directly emit one
bit equal to the pre-transition level's logical mapping" (long-low gives 0,
long-high gives 1).  The pre-transition level of the completed run is
`lastDigitalState`; the code's `decodeLong` instead tests `currentState`. -/
def decodeLongSpec (s : DecoderState) : DecoderState × Option DecodedEvent :=
  let r := processBit s.bitAcc (if s.lastDigitalState = 0 then false else true)
  ({ s with bitAcc := r.1, pendingShort := none }, r.2)

/-- The decoder tick with the spec's long-pulse rule substituted for the
code's; the short-pulse branch and all bookkeeping are identical. -/
def decodeTickSpec (s : DecoderState) (currentState : Nat) :
    DecoderState × Option DecodedEvent :=
  if currentState = s.lastDigitalState then
    ({ s with runLength := s.runLength + 1 }, none)
  else
    let r :=
      if 4 ≤ s.runLength then decodeLongSpec s
      else decodeShort s currentState
    ({ r.1 with runLength := 0, lastDigitalState := currentState }, r.2)

/-- Run the spec-rule classifier/decoder over a list of digital states. -/
def runDigitalSpec : DecoderState → List Nat → DecoderState × List DecodedEvent
  | s, [] => (s, [])
  | s, st :: rest =>
      let r := decodeTickSpec { s with digitalState := st } st
      let rest2 := runDigitalSpec r.1 rest
      (rest2.1, r.2.toList ++ rest2.2)

/-- Expand a run description (level, tick count) list into a raw frame
sample list. -/
def blocks (l : List (Int × Nat)) : List ℚ :=
  l.flatMap (fun p => List.replicate p.2 ((p.1 : ℚ)))

/-- A frame sequence that drives the digitizer high before a device
switch. -/
def priorFrames : List ℚ := [0, 0, 0, 100, 100]

/-- A frame sequence replayed both on a fresh pipeline and after
`resetPipeline`: seven short pulse pairs followed by one long high run. -/
def replayFrames : List ℚ := blocks
  [(0, 3), (100, 2), (-100, 2), (100, 2), (-100, 2), (100, 2), (-100, 2),
   (100, 2), (-100, 2), (100, 2), (-100, 2), (100, 2), (-100, 2),
   (100, 2), (-100, 2), (100, 7), (-100, 4)]

/-- The state invariant maintained by the decoder: digital levels are
binary, and a pending short pulse always records the level entered at the
transition that ended it, which is exactly the last digital state. -/
def decInv (s : DecoderState) : Prop :=
  s.digitalState ≤ 1 ∧ s.lastDigitalState ≤ 1 ∧
    ∀ p, s.pendingShort = some p → p = s.lastDigitalState

section Theorems

set_option maxRecDepth 100000

/-- The Schmitt trigger only ever produces binary levels. -/
theorem schmitt_le_one (T : ℚ) (d : Nat) (x : ℚ) (hd : d ≤ 1) :
    schmitt T d x ≤ 1 := by
  unfold schmitt
  split_ifs <;> omega

/-- The decoder invariant holds at creation. -/
theorem decInv_initDecoder : decInv initDecoder := by
  refine ⟨by decide, by decide, fun p hp => ?_⟩
  simp [initDecoder] at hp

/-- One decoder tick preserves the invariant (for a binary input level). -/
theorem decInv_decodeTick (s : DecoderState) (c : Nat) (hinv : decInv s)
    (hc : c ≤ 1) : decInv (decodeTick s c).1 := by
  obtain ⟨d, rl, acc, last, pend⟩ := s
  obtain ⟨h1, h2, h3⟩ := hinv
  simp only [decInv] at *
  by_cases hlast : c = last
  · simp [decodeTick, hlast]
    exact ⟨h1, h2, h3⟩
  · by_cases h4 : 4 ≤ rl
    · simp [decodeTick, hlast, h4, decodeLong]
      exact ⟨h1, hc⟩
    · cases pend with
      | none => simp [decodeTick, hlast, h4, decodeShort]; exact ⟨h1, hc⟩
      | some p =>
          simp only [decodeTick, if_neg hlast, if_neg h4, decodeShort]
          split_ifs <;> simp_all

/-- One full digitizer-plus-decoder tick preserves the invariant. -/
theorem decInv_digitalTick (T : ℚ) (s : DecoderState) (x : ℚ)
    (hinv : decInv s) : decInv (digitalTick T s x).1 := by
  have hst : schmitt T s.digitalState x ≤ 1 := schmitt_le_one T _ x hinv.1
  have hinv2 : decInv { s with digitalState := schmitt T s.digitalState x } :=
    ⟨hst, hinv.2.1, hinv.2.2⟩
  exact decInv_decodeTick _ _ hinv2 hst

/-- The invariant is preserved along any run of the decoder. -/
theorem decInv_runDecoder (T : ℚ) : ∀ (l : List ℚ) (s : DecoderState),
    decInv s → decInv (runDecoder T s l).1 := by
  intro l
  induction l with
  | nil => intro s hs; exact hs
  | cons x xs ih =>
      intro s hs
      exact ih _ (decInv_digitalTick T s x hs)

/-- C1: at a transition ending a long run, the code appends the bit named by
the post-transition level (`currentState`), not the completed run's
pre-transition level.  Evaluated at a completed long low run (last state 0,
recorded length 5): the code emits bit 1 and clears the pending pulse,
whereas the documented mapping (long-low emits 0, as in the inline comment
and the sender convention of `src/components/ScopeVisualizer.tsx`) and the
spec's long-pulse rule emit bit 0, as `decodeLongSpec` does. -/
theorem long_pulse_emits_post_transition_level :
    decodeTick ⟨1, 5, [], 0, some 0⟩ 1 = (⟨1, 0, [true], 1, none⟩, none) ∧
    (decodeTick ⟨1, 5, [], 0, some 0⟩ 1).1.bitAcc ≠ [false] ∧
    (decodeLongSpec ⟨1, 5, [], 0, some 0⟩).1.bitAcc = [false] := by
  decide

/-- C4: the §4.6-encoded stream for bytes `[240, 72, 73, 15]` (lock marker,
'H', 'I', end marker; half-bit width 3 ticks) does not decode to those
bytes under the code — it yields the two garbage characters `'$','$'` —
while the identical stream decodes exactly to lock, 'H', 'I', end once the
long-pulse branch uses the spec's pre-transition-level rule. -/
theorem manchester_roundtrip_behavior :
    (runDigital initDecoder (encodeTicksSpec 3 [240, 72, 73, 15])).2 =
      [DecodedEvent.chr 36, DecodedEvent.chr 36] ∧
    (runDigital initDecoder (encodeTicksSpec 3 [240, 72, 73, 15])).2 ≠
      [DecodedEvent.lock, DecodedEvent.chr 72, DecodedEvent.chr 73,
       DecodedEvent.endMark] ∧
    (runDigitalSpec initDecoder (encodeTicksSpec 3 [240, 72, 73, 15])).2 =
      [DecodedEvent.lock, DecodedEvent.chr 72, DecodedEvent.chr 73,
       DecodedEvent.endMark] := by
  decide

/-- C6 counterexample: after a transition (state flip from 0 to 1 with a
completed run of recorded length 2) the run-length counter holds 0, not 1
as claimed. -/
theorem run_counter_not_one_after_flip :
    (decodeTick ⟨1, 2, [], 0, none⟩ 1).1.runLength ≠ 1 := by decide

/-- C6 amended: on every tick with an unchanged state the run-length counter
increments by one and nothing is emitted; on a state flip the completed run
is handled by the long branch exactly when its recorded length is at least
4 and by the short branch exactly when it is at most 3, and afterwards the
run-length counter resets to 0 (not 1) and the last-state marker holds the
new state. -/
theorem pulse_classifier_tick (s : DecoderState) (c : Nat) :
    (c = s.lastDigitalState →
      decodeTick s c = ({ s with runLength := s.runLength + 1 }, none)) ∧
    (c ≠ s.lastDigitalState →
      (decodeTick s c).1.runLength = 0 ∧
      (decodeTick s c).1.lastDigitalState = c ∧
      (4 ≤ s.runLength →
        decodeTick s c =
          ({ (decodeLong s c).1 with runLength := 0, lastDigitalState := c },
           (decodeLong s c).2)) ∧
      (s.runLength ≤ 3 →
        decodeTick s c =
          ({ (decodeShort s c).1 with runLength := 0, lastDigitalState := c },
           (decodeShort s c).2))) := by
  refine ⟨fun h => by simp [decodeTick, h], fun h => ⟨?_, ?_, ?_, ?_⟩⟩
  · simp [decodeTick, h]
  · simp [decodeTick, h]
  · intro h4; simp [decodeTick, h, h4]
  · intro h3
    have h4 : ¬4 ≤ s.runLength := by omega
    simp [decodeTick, h, h4]

/-- Witness for `pulse_classifier_tick`: a long run of recorded length 5
emits the current level's bit; a short run of recorded length 2 stores the
current level as pending. -/
theorem pulse_classifier_tick_witness :
    decodeTick ⟨1, 5, [], 0, none⟩ 1 = (⟨1, 0, [true], 1, none⟩, none) ∧
    decodeTick ⟨1, 2, [], 0, none⟩ 1 = (⟨1, 0, [], 1, some 1⟩, none) := by
  constructor
  · have h := ((pulse_classifier_tick ⟨1, 5, [], 0, none⟩ 1).2
      (by decide)).2.2.1 (by decide)
    simpa [decodeLong, processBit] using h
  · have h := ((pulse_classifier_tick ⟨1, 2, [], 0, none⟩ 1).2
      (by decide)).2.2.2 (by decide)
    simpa [decodeShort] using h

/-- C7 counterexample: after a device-switch reset from a state whose
last-state marker is 1, the marker still holds 1, not its initial value. -/
theorem reset_keeps_last_state :
    (resetPipeline ⟨some 5, [3], ⟨1, 7, [true], 1, some 1⟩⟩).dec.lastDigitalState ≠
      initDecoder.lastDigitalState := by decide

/-- C7 amended: the device-switch reset clears the baseline, the smoothing
history, the run-length counter, the bit accumulator and the pending short
pulse, but retains the digital state and the last-state marker. -/
theorem reset_block_behavior (s : PipelineState) :
    (resetPipeline s).baseline = none ∧
    (resetPipeline s).rawHistory = [] ∧
    (resetPipeline s).dec.runLength = 0 ∧
    (resetPipeline s).dec.bitAcc = [] ∧
    (resetPipeline s).dec.pendingShort = none ∧
    (resetPipeline s).dec.digitalState = s.dec.digitalState ∧
    (resetPipeline s).dec.lastDigitalState = s.dec.lastDigitalState :=
  ⟨rfl, rfl, rfl, rfl, rfl, rfl, rfl⟩

/-- C2: on a transition whose completed run is short (recorded length at
most 3), in any state satisfying the decoder invariant: with no pulse
pending, the current level is stored as pending and no bit is emitted;
with a pending pulse, the pending level always differs from the current
one (a same-level pending pulse is impossible in reachable states), and
the pair resolves to exactly one bit — pending 0 then current 1 emits bit
0, pending 1 then current 0 emits bit 1 — clearing the pending slot. -/
theorem short_pulse_pairing (s : DecoderState) (c : Nat) (hinv : decInv s)
    (hc : c ≤ 1) (hne : c ≠ s.lastDigitalState) (hshort : s.runLength ≤ 3) :
    (s.pendingShort = none →
      decodeTick s c =
        ({ s with pendingShort := some c, runLength := 0,
                  lastDigitalState := c }, none)) ∧
    ∀ p, s.pendingShort = some p →
      p ≠ c ∧
      (p = 0 →
        decodeTick s c =
          ({ s with bitAcc := (processBit s.bitAcc false).1,
                    pendingShort := none, runLength := 0,
                    lastDigitalState := c },
           (processBit s.bitAcc false).2)) ∧
      (p = 1 →
        decodeTick s c =
          ({ s with bitAcc := (processBit s.bitAcc true).1,
                    pendingShort := none, runLength := 0,
                    lastDigitalState := c },
           (processBit s.bitAcc true).2)) := by
  obtain ⟨hd, hl, hpend⟩ := hinv
  have h4 : ¬4 ≤ s.runLength := by omega
  constructor
  · intro h0
    simp [decodeTick, hne, h4, decodeShort, h0]
  · intro p hp
    have hpl : p = s.lastDigitalState := hpend p hp
    have hpc : p ≠ c := fun h => hne (h ▸ hpl)
    refine ⟨hpc, fun hp0 => ?_, fun hp1 => ?_⟩
    · have hc1 : c = 1 := by omega
      have hlast : s.lastDigitalState = 0 := by omega
      simp [decodeTick, h4, decodeShort, hp, hp0, hc1, hlast]
    · have hc0 : c = 0 := by omega
      have hlast : s.lastDigitalState = 1 := by omega
      simp [decodeTick, h4, decodeShort, hp, hp1, hc0, hlast]

/-- Witness for `short_pulse_pairing`: a pending short low pulse paired with
a short transition to high emits bit 0 and clears the pending slot. -/
theorem short_pulse_pairing_witness :
    decodeTick ⟨1, 2, [], 0, some 0⟩ 1 = (⟨1, 0, [false], 1, none⟩, none) := by
  have h := (short_pulse_pairing ⟨1, 2, [], 0, some 0⟩ 1
      ⟨by decide, by decide, fun p hp => by injection hp with h; exact h.symm⟩
      (by decide) (by decide) (by decide)).2 0 rfl
  simpa [processBit] using h.2.1 rfl

/-- C3: once the accumulator reaches 8 symbols it is cleared in every case;
the lock pattern yields a lock marker, the end pattern an end marker, and
any other byte yields a character exactly when its value lies in
[32, 126], otherwise nothing. -/
theorem byte_framing (acc : List Bool) (b : Bool) (hlen : acc.length = 7) :
    (processBit acc b).1 = [] ∧
    (acc ++ [b] = lockPattern →
      (processBit acc b).2 = some DecodedEvent.lock) ∧
    (acc ++ [b] ≠ lockPattern → acc ++ [b] = endPattern →
      (processBit acc b).2 = some DecodedEvent.endMark) ∧
    (acc ++ [b] ≠ lockPattern → acc ++ [b] ≠ endPattern →
      (32 ≤ bitsToNat (acc ++ [b]) ∧ bitsToNat (acc ++ [b]) ≤ 126 →
        (processBit acc b).2 =
          some (DecodedEvent.chr (bitsToNat (acc ++ [b])))) ∧
      (¬(32 ≤ bitsToNat (acc ++ [b]) ∧ bitsToNat (acc ++ [b]) ≤ 126) →
        (processBit acc b).2 = none)) := by
  have h8 : 8 ≤ (acc ++ [b]).length := by simp [hlen]
  refine ⟨?_, ?_, ?_, ?_⟩
  · simp only [processBit, if_pos h8]
    split_ifs <;> rfl
  · intro hl
    simp [processBit, hl, lockPattern]
  · intro hnl he
    simp [processBit, hnl, he, lockPattern, endPattern]
  · intro hnl hne
    constructor
    · intro hin
      simp [processBit, hnl, hne, hin, hlen]
    · intro hout
      simp [processBit, hnl, hne, hout, hlen]

/-- Witness for `byte_framing`: byte value 32 (the lower printable
boundary) is emitted as a character; byte value 127 is silently
discarded. -/
theorem byte_framing_witness :
    (processBit [false, false, true, false, false, false, false] false).2 =
      some (DecodedEvent.chr 32) ∧
    (processBit [false, true, true, true, true, true, true] true).2 = none := by
  constructor
  · have h := ((byte_framing [false, false, true, false, false, false, false]
      false (by decide)).2.2.2 (by decide) (by decide)).1 (by decide)
    have e : bitsToNat ([false, false, true, false, false, false, false] ++
        [false]) = 32 := by decide
    rw [e] at h
    exact h
  · exact ((byte_framing [false, true, true, true, true, true, true]
      true (by decide)).2.2.2 (by decide) (by decide)).2 (by decide)

/-- Folding the Schmitt trigger over values inside the dead zone never
changes the state. -/
theorem schmitt_foldl_const (T : ℚ) : ∀ (l : List ℚ) (d : Nat),
    (∀ x ∈ l, ¬T < x ∧ ¬x < -T) → l.foldl (schmitt T) d = d := by
  intro l
  induction l with
  | nil => intro d _; rfl
  | cons x xs ih =>
      intro d h
      have hx := h x (by simp)
      have hstep : schmitt T d x = d := by
        simp [schmitt, hx.1, hx.2]
      rw [List.foldl_cons, hstep]
      exact ih d fun y hy => h y (by simp [hy])

/-- C5: per tick the digitizer goes high strictly above `T`, low strictly
below `-T`, and otherwise keeps its state; consequently a state fed any
sequence of amplified values lying strictly between `-T` and `T` never
changes. -/
theorem schmitt_hysteresis (T : ℚ) (hT : 0 < T) (d : Nat) :
    (∀ x : ℚ, T < x → schmitt T d x = 1) ∧
    (∀ x : ℚ, x < -T → schmitt T d x = 0) ∧
    (∀ x : ℚ, ¬T < x → ¬x < -T → schmitt T d x = d) ∧
    (∀ l : List ℚ, (∀ x ∈ l, -T < x ∧ x < T) →
      l.foldl (schmitt T) d = d) := by
  refine ⟨fun x hx => by simp [schmitt, hx], fun x hx => ?_,
    fun x h1 h2 => by simp [schmitt, h1, h2], fun l hl => ?_⟩
  · have hnx : ¬T < x := by linarith
    simp [schmitt, hnx, hx]
  · refine schmitt_foldl_const T l d fun x hx => ?_
    obtain ⟨hlo, hhi⟩ := hl x hx
    exact ⟨by linarith, by linarith⟩

/-- Witness for `schmitt_hysteresis` at `T = 1`: the trigger rises at 2,
falls at -2, holds inside the band, and an in-band sequence leaves the
state unchanged. -/
theorem schmitt_hysteresis_witness :
    schmitt 1 0 2 = 1 ∧ schmitt 1 1 (-2) = 0 ∧ schmitt 1 1 (1 / 2) = 1 ∧
    [(0 : ℚ), 1 / 2, -1 / 2].foldl (schmitt 1) 0 = 0 := by
  have h0 := schmitt_hysteresis 1 (by norm_num) 0
  have h1 := schmitt_hysteresis 1 (by norm_num) 1
  refine ⟨h0.1 2 (by norm_num), h1.2.1 (-2) (by norm_num),
    h1.2.2.1 (1 / 2) (by norm_num) (by norm_num),
    h0.2.2.2 [0, 1 / 2, -1 / 2] ?_⟩
  intro x hx
  simp only [List.mem_cons, List.not_mem_nil, or_false] at hx
  rcases hx with h | h | h <;> subst h <;> constructor <;> norm_num

/-- The IIR baseline is a fixed point on constant input. -/
theorem iirRun_const (α v : ℚ) : ∀ k,
    iirRun α (some v) (List.replicate k v) = some v := by
  intro k
  induction k with
  | zero => rfl
  | succ n ih =>
      have hstep : iirStep α v v = v := by unfold iirStep; ring
      rw [List.replicate_succ]
      show iirRun α (some (iirStep α v v)) (List.replicate n v) = some v
      rw [hstep]
      exact ih

/-- C9: the baseline initializes to the first sample and, on a constant
input sequence of value `v`, is within any positive tolerance of `v` from
the first tick on (it equals `v` exactly), for every smoothing factor
strictly between 0 and 1. -/
theorem baseline_converges (α v ε : ℚ) (hα0 : 0 < α) (hα1 : α < 1)
    (hε : 0 < ε) :
    (∀ x : ℚ, iirRun α none [x] = some x) ∧
    ∃ N : Nat, ∀ n, N ≤ n → ∀ b,
      iirRun α none (List.replicate n v) = some b → |b - v| < ε := by
  refine ⟨fun x => rfl, 1, fun n hn b hb => ?_⟩
  obtain ⟨m, rfl⟩ : ∃ m, n = m + 1 := ⟨n - 1, by omega⟩
  rw [List.replicate_succ] at hb
  have hrun : iirRun α none (v :: List.replicate m v) = some v := by
    show iirRun α (some v) (List.replicate m v) = some v
    exact iirRun_const α v m
  rw [hrun] at hb
  injection hb with hb
  rw [← hb]
  simpa using hε

/-- Witness for `baseline_converges` at `α = 1/2`, `v = 7`, `ε = 1`. -/
theorem baseline_converges_witness :
    iirRun (1 / 2) none [(7 : ℚ)] = some 7 ∧
    ∃ N : Nat, ∀ n, N ≤ n → ∀ b,
      iirRun (1 / 2) none (List.replicate n (7 : ℚ)) = some b →
      |b - 7| < 1 := by
  have h := baseline_converges (1 / 2) 7 1 (by norm_num) (by norm_num)
    (by norm_num)
  exact ⟨h.1 7, h.2⟩

/-- With the digitizer at 0 and no signal above the threshold, every tick
just lengthens the current run. -/
theorem runDecoder_quiescent (T : ℚ) : ∀ (l : List ℚ) (rl : Nat)
    (acc : List Bool) (pend : Option Nat), (∀ x ∈ l, x ≤ T) →
    runDecoder T ⟨0, rl, acc, 0, pend⟩ l =
      (⟨0, rl + l.length, acc, 0, pend⟩, []) := by
  intro l
  induction l with
  | nil => intro rl acc pend _; simp [runDecoder]
  | cons x xs ih =>
      intro rl acc pend hx
      have hxT : x ≤ T := hx x (by simp)
      have hs : schmitt T 0 x = 0 := by
        unfold schmitt
        rw [if_neg (not_lt.mpr hxT)]
        split_ifs <;> rfl
      have htick : digitalTick T ⟨0, rl, acc, 0, pend⟩ x =
          (⟨0, rl + 1, acc, 0, pend⟩, none) := by
        simp [digitalTick, hs, decodeTick]
      rw [runDecoder, htick]
      rw [ih (rl + 1) acc pend fun y hy => hx y (by simp [hy])]
      simp [List.length_cons]
      omega

/-- C10: at creation the digital state is 0 and no short pulse is pending;
for any amplified-signal sequence never strictly above `T`, the digital
state stays 0 on every tick, the run counter just counts the ticks (so no
transition ever fires), and no event is emitted. -/
theorem quiescent_pipeline (T : ℚ) (l : List ℚ) (h : ∀ x ∈ l, x ≤ T) :
    initDecoder.digitalState = 0 ∧ initDecoder.pendingShort = none ∧
    (runDecoder T initDecoder l).1.digitalState = 0 ∧
    (runDecoder T initDecoder l).1.lastDigitalState = 0 ∧
    (runDecoder T initDecoder l).1.runLength = l.length ∧
    (runDecoder T initDecoder l).2 = [] := by
  have hr := runDecoder_quiescent T l 0 [] none h
  have hinit : initDecoder = (⟨0, 0, [], 0, none⟩ : DecoderState) := rfl
  rw [hinit, hr]
  simp

/-- Witness for `quiescent_pipeline` on the sequence `[0, -5, 1]` with
`T = 1`. -/
theorem quiescent_pipeline_witness :
    (runDecoder 1 initDecoder [0, -5, 1]).1.digitalState = 0 ∧
    (runDecoder 1 initDecoder [0, -5, 1]).2 = [] := by
  have h := quiescent_pipeline 1 [0, -5, 1] (by
    intro x hx
    simp only [List.mem_cons, List.not_mem_nil, or_false] at hx
    rcases hx with h | h | h <;> subst h <;> norm_num)
  exact ⟨h.2.2.1, h.2.2.2.2.2⟩

/-- C8 counterexample: replaying `replayFrames` (gain 1, threshold 1) on a
freshly created pipeline emits no event, while replaying it after a
device-switch reset of a pipeline that had processed `priorFrames` emits
the character `'~'` — the retained digital state and last-state marker
leak across the reset. -/
theorem reset_replay_differs :
    (runPipeline 1 1 (resetPipeline (runPipeline 1 1 initPipeline
        priorFrames).1) replayFrames).2 ≠
      (runPipeline 1 1 initPipeline replayFrames).2 :=
  of_decide_eq_true (by with_unfolding_all rfl)

/-- C8 amended: a reset produces the initial pipeline state — and hence
replay equals a fresh run — exactly when the digital state and last-state
marker already hold their initial value 0 at reset time; those two fields
are the only state a reset retains. -/
theorem reset_replay_matches_fresh (g T : ℚ) (s : PipelineState)
    (frames : List ℚ) (h1 : s.dec.digitalState = 0)
    (h2 : s.dec.lastDigitalState = 0) :
    runPipeline g T (resetPipeline s) frames =
      runPipeline g T initPipeline frames := by
  have hs : resetPipeline s = initPipeline := by
    obtain ⟨b, rh, d⟩ := s
    obtain ⟨ds, rl, acc, last, pend⟩ := d
    simp only at h1 h2
    simp [resetPipeline, initPipeline, initDecoder, h1, h2]
  rw [hs]

/-- Witness for `reset_replay_matches_fresh` at a concrete dirty state with
zero digitizer marks and a two-frame replay. -/
theorem reset_replay_matches_fresh_witness :
    runPipeline 1 1 (resetPipeline ⟨some 3, [2], ⟨0, 5, [true], 0, some 1⟩⟩)
        [1, 2] =
      runPipeline 1 1 initPipeline [1, 2] :=
  reset_replay_matches_fresh 1 1 ⟨some 3, [2], ⟨0, 5, [true], 0, some 1⟩⟩
    [1, 2] rfl rfl

end Theorems

end Spy
